import Mathlib

/-!
Verification of the measurement-data assembly core of the Qcodes repository:
shape resolution for sweeps over scalar / array / multi parameters, the
dataset store, the loop executor, and the derivative array parameters from
the examples.  Definitions are shallow embeddings of the Python source in
src/docs/examples; components whose source is not shipped (Loop, Measure,
DataSet, the shape resolver) are modelled from the specification and checked
against the recorded notebook outputs.
-/

namespace Qcodes

/-- Python list slicing `l[a:b]` (step 1) with possibly negative bounds:
negative indices count from the end, and both bounds are clamped to
`[0, len(l)]`. -/
def pySlice {α : Type} (l : List α) (a b : Int) : List α :=
  let n : Int := l.length
  let na := if a < 0 then a + n else a
  let nb := if b < 0 then b + n else b
  let a2 := (max 0 (min n na)).toNat
  let b2 := (max 0 (min n nb)).toNat
  (l.take b2).drop a2

/-- State of the `Derivative` ArrayParameter from
"Live plotting the derivative.ipynb": the antiderivative's setpoints and
declared length, the derived setpoints and the derived declared length
(`shape` is the 1-tuple `(shape0,)`). -/
structure DerivativeP where
  adSetpoints : List Rat
  adShape0 : Int
  sp : List Rat
  shape0 : Int
deriving DecidableEq

/-- `Derivative.__init__`: `shape=(antiderivative.shape[0] - 1,)` and
`setpoints = (ad.setpoints[0][:-1],)`. -/
def mkDerivative (adSp : List Rat) (adShape0 : Int) : DerivativeP :=
  { adSetpoints := adSp
    adShape0 := adShape0
    sp := pySlice adSp 0 (-1)
    shape0 := adShape0 - 1 }

/-- State of the `SmoothDerivative` ArrayParameter: antiderivative data,
current kernel size `ks`, derived setpoints and declared length. -/
structure SmoothDeriv where
  adSetpoints : List Rat
  adShape0 : Int
  ks : Int
  sp : List Rat
  shape0 : Int
deriving DecidableEq

/-- `SmoothDerivative.__init__`:
`shape=(antiderivative.shape[0] - 1 - kernel_size,)` and
`setpoints = (ad.setpoints[0][ks//2 : -ks//2 - 1],)` (Python floor
division, hence `Int.fdiv`). -/
def mkSmoothDeriv (adSp : List Rat) (adShape0 : Int) (kernel : Int) : SmoothDeriv :=
  { adSetpoints := adSp
    adShape0 := adShape0
    ks := kernel
    sp := pySlice adSp (Int.fdiv kernel 2) (Int.fdiv (-kernel) 2 - 1)
    shape0 := adShape0 - 1 - kernel }

/-- `SmoothDerivative.change_kernel_size`: raises `ValueError` (and leaves
the object untouched, since the parity check precedes every mutation) when
`ks` is odd, otherwise updates `ks`, the setpoints and the shape.  The
returned `Option String` is the raised error, `none` on success. -/
def changeKernelSize (p : SmoothDeriv) (k : Int) : SmoothDeriv × Option String :=
  if Int.emod k 2 ≠ 0 then
    (p, some "Kernel size must be an even integer")
  else
    ({ p with
        ks := k
        sp := pySlice p.adSetpoints (Int.fdiv k 2) (Int.fdiv (-k) 2 - 1)
        shape0 := p.adShape0 - 1 - k }, none)

/-- The declared-shape / setpoint-length invariant for a one-dimensional
array parameter: the setpoint sequence's length equals the single shape
entry. -/
def spInv (shape0 : Int) (sp : List Rat) : Prop :=
  (sp.length : Int) = shape0

instance spInvDec (s : Int) (l : List Rat) : Decidable (spInv s l) :=
  inferInstanceAs (Decidable ((l.length : Int) = s))

/-- Role of a resolved array in a DataSet. -/
inductive Role where
  | setpoint : Role
  | measured : Role
deriving DecidableEq

/-- A resolved array of the layout: id, role, shape, setpoint data (filled
for Setpoint arrays, empty until the run for Measured arrays), and the ids
of the setpoint arrays describing its axes (for Measured arrays). -/
structure ResolvedArray where
  id : String
  role : Role
  shape : List Nat
  data : List Rat
  spIds : List String
deriving DecidableEq

/-- One item of a MultiParameter: sub-name, declared shape, setpoint array
names and flattened (row-major) per-axis setpoint sequences. -/
structure MItem where
  name : String
  shape : List Nat
  spNames : List String
  sps : List (List Rat)
deriving DecidableEq

/-- An action parameter as seen by the shape resolver: scalar `Parameter`,
`ArrayParameter` (declared shape, setpoint names, flattened per-axis
setpoint sequences), or `MultiParameter` (name plus items). -/
inductive ParamKind where
  | scalar : String → ParamKind
  | array : String → List Nat → List String → List (List Rat) → ParamKind
  | multi : String → List MItem → ParamKind
deriving DecidableEq

/-- The `k`-th candidate id for base name `b`: `b` itself for `k = 0`,
otherwise `b_k`. -/
def candId (b : String) : Nat → String
  | 0 => b
  | Nat.succ n => b ++ "_" ++ toString (n + 1)

/-- Scan candidates `candId b k, candId b (k+1), ...` until one is not in
`used` (with enough fuel this finds the smallest unused suffix). -/
def freshFrom (used : List String) (b : String) : Nat → Nat → String
  | 0, k => candId b k
  | Nat.succ fuel, k =>
      if candId b k ∈ used then freshFrom used b fuel (k + 1) else candId b k

/-- Modelled from the spec: the Shape Resolver's id-collision policy
(source of the resolver is not under src/): on collision with an already
assigned id, append `_N` with the smallest unused `N ≥ 1`. -/
def freshId (used : List String) (b : String) : String :=
  freshFrom used b (used.length + 1) 0

/-- Resolver state: assigned ids and resolved arrays, in assignment order. -/
structure ResolveSt where
  used : List String
  arrays : List ResolvedArray
deriving DecidableEq

/-- Assign a fresh id for base name `b` and append the array. -/
def addArray (st : ResolveSt) (b : String) (r : Role) (shape : List Nat)
    (data : List Rat) (spIds : List String) : ResolveSt × String :=
  let i := freshId st.used b
  ({ used := st.used ++ [i],
     arrays := st.arrays ++ [⟨i, r, shape, data, spIds⟩] }, i)

/-- Axis lengths of a sweep specification. -/
def sweepShape (sweep : List (String × List Rat)) : List Nat :=
  sweep.map (fun ax => ax.2.length)

/-- Modelled from the spec: each swept parameter at depth `d` contributes a
Setpoint array named `name_set`, of shape `S.take (d+1)`, its values tiled
(row-major) across the outer axes.  Returns the new state and the assigned
ids, outer first. -/
def resolveSweepAux (S : List Nat) :
    List (String × List Rat) → Nat → ResolveSt → ResolveSt × List String
  | [], _, st => (st, [])
  | ax :: rest, d, st =>
      let p := addArray st (ax.1 ++ "_set") Role.setpoint (S.take (d + 1))
        (List.flatten (List.replicate ((S.take d).prod) ax.2)) []
      let q := resolveSweepAux S rest (d + 1) p.1
      (q.1, p.2 :: q.2)

/-- Modelled from the spec: the intrinsic setpoint arrays of an array-shaped
action with remaining axes `axes` (already seen axes in `pre`): axis `i`
gets shape `S ++ A.take (i+1)` and the declared flattened setpoint sequence
tiled `S.prod` times.  Returns the new state and the assigned ids. -/
def resolveSPs (S : List Nat) (pre : List Nat) :
    List Nat → List String → List (List Rat) → ResolveSt → ResolveSt × List String
  | [], _, _, st => (st, [])
  | a :: arest, names, sps, st =>
      let p := addArray st (names.headD "index") Role.setpoint (S ++ (pre ++ [a]))
        (List.flatten (List.replicate S.prod (sps.headD []))) []
      let q := resolveSPs S (pre ++ [a]) arest names.tail sps.tail p.1
      (q.1, p.2 :: q.2)

/-- Modelled from the spec: resolve one (sub-)parameter of declared shape
`A`: first its intrinsic setpoint arrays, then one Measured array of shape
`S ++ A` depending on the sweep setpoint ids and its own setpoint ids. -/
def resolveOne (S : List Nat) (swIds : List String) (n : String) (A : List Nat)
    (names : List String) (sps : List (List Rat)) (st : ResolveSt) : ResolveSt :=
  let p := resolveSPs S [] A names sps st
  (addArray p.1 n Role.measured (S ++ A) [] (swIds ++ p.2)).1

/-- Resolve the items of a MultiParameter in order, each by its own shape
and setpoints. -/
def resolveItems (S : List Nat) (swIds : List String) :
    List MItem → ResolveSt → ResolveSt
  | [], st => st
  | it :: rest, st =>
      resolveItems S swIds rest (resolveOne S swIds it.name it.shape it.spNames it.sps st)

/-- Resolve the action list in order. -/
def resolveActions (S : List Nat) (swIds : List String) :
    List ParamKind → ResolveSt → ResolveSt
  | [], st => st
  | ParamKind.scalar n :: rest, st =>
      resolveActions S swIds rest (resolveOne S swIds n [] [] [] st)
  | ParamKind.array n A names sps :: rest, st =>
      resolveActions S swIds rest (resolveOne S swIds n A names sps st)
  | ParamKind.multi _ items :: rest, st =>
      resolveActions S swIds rest (resolveItems S swIds items st)

/-- Modelled from the spec: the Shape Resolver (source not under src/):
`resolve(sweep_spec, actions)` lists the sweep Setpoint arrays followed by
each action's arrays, with collision-free ids. -/
def resolve (sweep : List (String × List Rat)) (actions : List ParamKind) :
    List ResolvedArray :=
  let S := sweepShape sweep
  let p := resolveSweepAux S sweep 0 ⟨[], []⟩
  (resolveActions S p.2 actions p.1).arrays

/-- `shapePre a b`: `a` is a leading segment of `b` (shape-prefix order). -/
def shapePre (a b : List Nat) : Prop :=
  ∃ t, a ++ t = b

instance shapePreDec (a b : List Nat) : Decidable (shapePre a b) :=
  decidable_of_iff (b.take a.length = a) (by
    constructor
    · intro h
      refine ⟨b.drop a.length, ?_⟩
      conv_rhs => rw [← List.take_append_drop a.length b]
      rw [h]
    · intro h
      obtain ⟨t, ht⟩ := h
      rw [← ht]
      simp)

/-- An observable call made by the Loop Executor. -/
inductive Event where
  | setE : String → Rat → Event
  | getE : String → Event
deriving DecidableEq

/-- A stateful action parameter: `get` returns its (flattened, row-major)
block of values and the successor state. -/
structure ActionP (σ : Type) where
  name : String
  get : σ → List Rat × σ

/-- Row-major enumeration of all multi-indices below `dims`: the innermost
(last) axis varies fastest. -/
def idxCombos : List Nat → List (List Nat)
  | [] => [[]]
  | d :: ds => (List.range d).flatMap (fun i => (idxCombos ds).map (fun ix => i :: ix))

/-- Row-major rank of a multi-index below `dims` (Horner form). -/
def rowRank : List Nat → List Nat → Nat
  | _ :: ds, i :: ix => i * ds.prod + rowRank ds ix
  | _, _ => 0

/-- The sweep-value combinations visited by the executor, in row-major
index order. -/
def combos (axes : List (String × List Rat)) : List (List (String × Rat)) :=
  (idxCombos (axes.map (fun ax => ax.2.length))).map
    (fun ix => List.zipWith (fun ax i => (ax.1, ax.2.getD i 0)) axes ix)

/-- Call `get()` once on each action, in order; returns the get events, the
per-action value blocks, and the final state. -/
def runActs {σ : Type} : List (ActionP σ) → σ → List Event × List (List Rat) × σ
  | [], s => ([], [], s)
  | a :: rest, s =>
      let p := a.get s
      let q := runActs rest p.2
      (Event.getE a.name :: q.1, p.1 :: q.2.1, q.2.2)

/-- One step of the executor at one sweep-value combination: `set` each
swept parameter, then `get` each action. -/
def runStep {σ : Type} (acts : List (ActionP σ)) (c : List (String × Rat)) (s : σ) :
    List Event × List (List Rat) × σ :=
  let g := runActs acts s
  (c.map (fun pv => Event.setE pv.1 pv.2) ++ g.1, g.2.1, g.2.2)

/-- Run the executor over a list of combinations, strictly sequentially;
returns the event trace, one per-action block list per combination, and
the final state. -/
def runCombos {σ : Type} (acts : List (ActionP σ)) :
    List (List (String × Rat)) → σ → List Event × List (List (List Rat)) × σ
  | [], s => ([], [], s)
  | c :: rest, s =>
      let p := runStep acts c s
      let q := runCombos acts rest p.2.2
      (p.1 ++ q.1, p.2.1 :: q.2.1, q.2.2)

/-- Modelled from the spec: the Loop Executor (source not under src/): for
each combination of sweep values in row-major order, set every swept
parameter, then get every action, strictly sequentially. -/
def loopRun {σ : Type} (axes : List (String × List Rat)) (acts : List (ActionP σ))
    (s : σ) : List Event × List (List (List Rat)) × σ :=
  runCombos acts (combos axes) s

/-- The data written into the Measured array of action number `k`: the
concatenation of its blocks in visit order. -/
def measuredData {σ : Type} (res : List Event × List (List (List Rat)) × σ)
    (k : Nat) : List Rat :=
  (res.2.1.map (fun b => b.getD k [])).flatten

/-- Modelled from the spec: one Measured buffer of the DataSet / Array
Store (source not under src/): `total` steps of `blockSize` elements each,
a buffer whose unwritten positions hold the sentinel `none`, and a
monotonically advancing fill marker counting completed steps. -/
structure DataSetM where
  total : Nat
  blockSize : Nat
  buffer : List (Option Rat)
  filledSteps : Nat
deriving DecidableEq

/-- `allocate`: buffer fully initialized to the sentinel, nothing filled. -/
def allocateDS (total blockSize : Nat) : DataSetM :=
  ⟨total, blockSize, List.replicate (total * blockSize) none, 0⟩

/-- `write`: overwrite exactly the next contiguous inner-shape slice and
advance the fill marker. -/
def writeBlock (ds : DataSetM) (blk : List Rat) : DataSetM :=
  let off := ds.filledSteps * ds.blockSize
  { ds with
      buffer := ds.buffer.take off ++ blk.map some ++ ds.buffer.drop (off + blk.length)
      filledSteps := ds.filledSteps + 1 }

/-- `is_complete`: every step has been visited. -/
def isComplete (ds : DataSetM) : Bool :=
  ds.filledSteps == ds.total

/-- Modelled from the spec: the executor driving a fallible action: on the
first failing `get` it stops, leaves the DataSet in its last consistent
state, and surfaces the error to the caller. -/
def runStepsE {σ : Type} (act : σ → Except String (List Rat × σ)) :
    Nat → σ → DataSetM → DataSetM × Option String
  | 0, _, ds => (ds, none)
  | Nat.succ n, s, ds =>
      match act s with
      | Except.error e => (ds, some e)
      | Except.ok p => runStepsE act n p.2 (writeBlock ds p.1)

/-- The error-free trajectory of a fallible action: the blocks produced by
`n` successful steps, if they all succeed. -/
def runPure {σ : Type} (act : σ → Except String (List Rat × σ)) :
    Nat → σ → Option (List (List Rat) × σ)
  | 0, s => some ([], s)
  | Nat.succ n, s =>
      match act s with
      | Except.error _ => none
      | Except.ok p =>
          match runPure act n p.2 with
          | none => none
          | some q => some (p.1 :: q.1, q.2)

/-- A consistently part-filled DataSet: the flattened written blocks, then
sentinels. -/
def mkFilled (total blockSize : Nat) (blks : List (List Rat)) : DataSetM :=
  ⟨total, blockSize,
    blks.flatten.map some ++
      List.replicate (total * blockSize - blks.flatten.length) none,
    blks.length⟩

/-- Modelled from the spec / recorded outputs: `qc.Measure` resolution
(source not under src/): scalar actions are placed on a dummy length-1 axis
with the shared Setpoint array `single_set` holding `[0]`; array and multi
actions keep their own declared shapes, with no length-1 dimension added. -/
def measureActions : List ParamKind → ResolveSt → ResolveSt
  | [], st => st
  | ParamKind.scalar n :: rest, st =>
      measureActions rest (resolveOne [1] ["single_set"] n [] [] [] st)
  | ParamKind.array n A names sps :: rest, st =>
      measureActions rest (resolveOne [] [] n A names sps st)
  | ParamKind.multi _ items :: rest, st =>
      measureActions rest (resolveItems [] [] items st)

/-- Modelled from the spec / recorded outputs: `qc.Measure(actions)`:
the shared `single_set` array of shape `(1,)` and value `[0]` is present
exactly when some action is scalar. -/
def measureResolve (actions : List ParamKind) : List ResolvedArray :=
  let hasScalar := actions.any (fun a =>
    match a with | ParamKind.scalar _ => true | _ => false)
  let st0 : ResolveSt :=
    if hasScalar then
      ⟨["single_set"], [⟨"single_set", Role.setpoint, [1], [0], []⟩]⟩
    else ⟨[], []⟩
  (measureActions actions st0).arrays

/-- The sweep `c[0:10:2]` from Parameters.ipynb: values 0,2,4,6,8. -/
def cSweep : List (String × List Rat) := [("c", [0, 2, 4, 6, 8])]

/-- The `ArrayCounter` parameter of Parameters.ipynb as seen by the
resolver: shape (3,2), setpoint names index0/index1, declared setpoints
(0,1,2) and ((0,1),(0,1),(0,1)) (flattened row-major). -/
def acParam : ParamKind :=
  ParamKind.array "array_counter" [3, 2] ["index0", "index1"]
    [[0, 1, 2], [0, 1, 0, 1, 0, 1]]

/-- `ArrayCounter.get`: returns the 3x2 block `val + 2*i + j` (row-major)
and advances the internal value by 6. -/
def acAction : ActionP Rat :=
  { name := "array_counter"
    get := fun s =>
      ((List.range 3).flatMap (fun i => (List.range 2).map (fun j =>
        s + 2 * (i : Rat) + (j : Rat))), s + 6) }

/-- `MyCounter.get`: increments the count, then returns it. -/
def counterAction (n : String) : ActionP Rat :=
  { name := n, get := fun s => ([s + 1], s + 1) }

/-- The `SingleIQPair` parameter: two scalar items I and Q. -/
def iqParam : ParamKind :=
  ParamKind.multi "single_iq" [⟨"I", [], [], []⟩, ⟨"Q", [], [], []⟩]

/-- The sweep `scale[0:1:.1]`: ten values 0, 0.1, ..., 0.9. -/
def scaleSweep : List (String × List Rat) :=
  [("scale", (List.range 10).map (fun i => (i : Rat) / 10))]

/-- The id-free content of a resolved array: role, shape and setpoint
data. -/
def proj (a : ResolvedArray) : Role × List Nat × List Rat :=
  (a.role, a.shape, a.data)

/-- Every setpoint id a Measured array depends on names a Setpoint array
of the layout whose shape is a leading segment of the Measured shape. -/
def depOK (arrays : List ResolvedArray) (m : ResolvedArray) : Prop :=
  ∀ sid ∈ m.spIds, ∃ sp ∈ arrays, sp.id = sid ∧ sp.role = Role.setpoint ∧
    shapePre sp.shape m.shape

/-- The dependency invariant of a whole layout. -/
def invOK (arrays : List ResolvedArray) : Prop :=
  ∀ m ∈ arrays, m.role = Role.measured → depOK arrays m

/-- All listed ids name Setpoint arrays whose shapes are leading segments
of `bound`. -/
def idsBelow (arrays : List ResolvedArray) (ids : List String) (bound : List Nat) : Prop :=
  ∀ i ∈ ids, ∃ sp ∈ arrays, sp.id = i ∧ sp.role = Role.setpoint ∧
    shapePre sp.shape bound

/-- Assign collision-free ids to a list of base names, in order. -/
def planIds : List String → List String → List String
  | _, [] => []
  | used, b :: bs =>
      let i := freshId used b
      i :: planIds (used ++ [i]) bs

/-- The base names requested for the intrinsic setpoint arrays of an
array-shaped action with `k` axes. -/
def basesSP : Nat → List String → List String
  | 0, _ => []
  | Nat.succ k, names => names.headD "index" :: basesSP k names.tail

/-- The base names requested when resolving one (sub-)parameter. -/
def basesOne (n : String) (arity : Nat) (names : List String) : List String :=
  basesSP arity names ++ [n]

/-- The base names requested by an action. -/
def basesAction : ParamKind → List String
  | ParamKind.scalar n => [n]
  | ParamKind.array n A names _ => basesOne n A.length names
  | ParamKind.multi _ items =>
      items.flatMap (fun it => basesOne it.name it.shape.length it.spNames)

/-- The name/arity skeleton of a whole resolution: the id assignment
depends on nothing else. -/
def resolveBases (sweep : List (String × List Rat)) (actions : List ParamKind) :
    List String :=
  sweep.map (fun ax => ax.1 ++ "_set") ++ actions.flatMap basesAction

/-- `MyCounter` `c` as a gettable action over the joint counter state
(`c` count, `c2` count). -/
def cGet : ActionP (Rat × Rat) :=
  { name := "c", get := fun s => ([s.1 + 1], (s.1 + 1, s.2)) }

/-- `MyCounter` `c2` as a gettable action over the joint counter state. -/
def c2Get : ActionP (Rat × Rat) :=
  { name := "c2", get := fun s => ([s.2 + 1], (s.1, s.2 + 1)) }

/-- A fallible instrument action for exercising the abort path: succeeds on
states 0 and 1, raises on state 2. -/
def failAct : Nat → Except String (List Rat × Nat) :=
  fun s => if s < 2 then Except.ok ([37], s + 1) else Except.error "instrument unreachable"

end Qcodes

namespace Qcodes

theorem pySlice_length {α : Type} (l : List α) (a b : Int) :
    (pySlice l a b).length =
      (max 0 (min (l.length : Int) (if b < 0 then b + l.length else b))).toNat -
      (max 0 (min (l.length : Int) (if a < 0 then a + l.length else a))).toNat := by
  simp only [pySlice, List.length_drop, List.length_take]
  omega

theorem smooth_slice_length (l : List Rat) (k : Int)
    (hk0 : 0 ≤ k) (hkn : k < l.length) :
    ((pySlice l (Int.fdiv k 2) (Int.fdiv (-k) 2 - 1)).length : Int) =
      (l.length : Int) - 1 - k := by
  rw [pySlice_length]
  rw [Int.fdiv_eq_ediv k (by norm_num), Int.fdiv_eq_ediv (-k) (by norm_num)]
  omega

theorem range_mul_flatMap (d P : Nat) :
    (List.range d).flatMap (fun i => (List.range P).map (fun r => i * P + r)) =
      List.range (d * P) := by
  induction d with
  | zero => simp
  | succ d ih =>
      rw [List.range_succ, List.flatMap_append, ih]
      have h1 : ∀ i : Nat, (List.range P).map (fun r => i * P + r) =
          List.range' (i * P) P := by
        intro i
        rw [List.range'_eq_map_range]
      simp only [List.flatMap_cons, List.flatMap_nil, List.append_nil, h1]
      rw [List.range_eq_range', List.range_eq_range']
      have h2 := List.range'_append 0 (d * P) P 1
      simp only [Nat.zero_add, Nat.one_mul] at h2
      rw [h2]
      congr 1
      ring

theorem idxCombos_rank (dims : List Nat) :
    (idxCombos dims).map (rowRank dims) = List.range dims.prod := by
  induction dims with
  | nil => rfl
  | cons d ds ih =>
      show ((List.range d).flatMap
          (fun i => (idxCombos ds).map (fun ix => i :: ix))).map (rowRank (d :: ds)) =
        List.range (d :: ds).prod
      rw [List.map_flatMap]
      have h1 : ∀ i : Nat,
          ((idxCombos ds).map (fun ix => i :: ix)).map (rowRank (d :: ds)) =
            (List.range ds.prod).map (fun r => i * ds.prod + r) := by
        intro i
        rw [List.map_map]
        have h2 : (rowRank (d :: ds)) ∘ (fun ix => i :: ix) =
            (fun r => i * ds.prod + r) ∘ rowRank ds := by
          funext ix
          rfl
        rw [h2, ← List.map_map, ih]
      simp only [h1]
      rw [range_mul_flatMap]
      rw [List.prod_cons]

theorem runActs_events {σ : Type} (acts : List (ActionP σ)) (s : σ) :
    (runActs acts s).1 = acts.map (fun a => Event.getE a.name) := by
  induction acts generalizing s with
  | nil => rfl
  | cons a rest ih =>
      show Event.getE a.name :: (runActs rest (a.get s).2).1 = _
      rw [ih]
      rfl

theorem runCombos_events {σ : Type} (acts : List (ActionP σ))
    (cs : List (List (String × Rat))) (s : σ) :
    (runCombos acts cs s).1 = cs.flatMap (fun c =>
      c.map (fun pv => Event.setE pv.1 pv.2) ++
        acts.map (fun a => Event.getE a.name)) := by
  induction cs generalizing s with
  | nil => rfl
  | cons c rest ih =>
      show (runStep acts c s).1 ++ (runCombos acts rest (runStep acts c s).2.2).1 = _
      rw [ih, List.flatMap_cons]
      congr 1
      show c.map (fun pv => Event.setE pv.1 pv.2) ++ (runActs acts s).1 = _
      rw [runActs_events]

theorem runCombos_single_len {σ : Type} (act : ActionP σ)
    (h : ∀ s : σ, ((act.get s).1).length = 1)
    (cs : List (List (String × Rat))) (s : σ) :
    (measuredData (runCombos [act] cs s) 0).length = cs.length := by
  induction cs generalizing s with
  | nil => rfl
  | cons c rest ih =>
      show (((runStep [act] c s).2.1.getD 0 []) ++
        (measuredData (runCombos [act] rest (runStep [act] c s).2.2) 0)).length = _
      rw [List.length_append, ih]
      have h2 : (runStep [act] c s).2.1.getD 0 [] = (act.get s).1 := rfl
      rw [h2, h]
      simp [Nat.add_comm]

theorem addArray_arrays (st : ResolveSt) (b : String) (r : Role) (sh : List Nat)
    (da : List Rat) (ids : List String) :
    (addArray st b r sh da ids).1.arrays =
      st.arrays ++ [⟨freshId st.used b, r, sh, da, ids⟩] := rfl

theorem headD_getD {α : Type} (l : List (List α)) : l.headD [] = l.getD 0 [] := by
  cases l <;> rfl

theorem tail_getD {α : Type} (l : List (List α)) (i : Nat) :
    l.tail.getD i [] = l.getD (i + 1) [] := by
  cases l <;> rfl

theorem resolveSPs_proj (S : List Nat) (axes : List Nat) :
    ∀ (names : List String) (sps : List (List Rat)) (st : ResolveSt) (pre : List Nat),
    ((resolveSPs S pre axes names sps st).1.arrays).map proj =
      st.arrays.map proj ++ (List.range axes.length).map (fun i =>
        (Role.setpoint, S ++ (pre ++ axes.take (i + 1)),
         List.flatten (List.replicate S.prod (sps.getD i [])))) := by
  induction axes with
  | nil =>
      intro names sps st pre
      simp [resolveSPs]
  | cons a arest ih =>
      intro names sps st pre
      show ((resolveSPs S (pre ++ [a]) arest names.tail sps.tail
        (addArray st (names.headD "index") Role.setpoint (S ++ (pre ++ [a]))
          (List.flatten (List.replicate S.prod (sps.headD []))) []).1).1.arrays).map proj = _
      rw [ih, addArray_arrays, List.map_append, List.append_assoc]
      congr 1
      rw [List.length_cons, List.range_succ_eq_map]
      simp only [List.map_cons, List.map_map, List.map_nil, List.singleton_append]
      congr 1
      · rw [headD_getD]
        rfl
      · apply List.map_congr_left
        intro i _
        show (Role.setpoint, S ++ ((pre ++ [a]) ++ arest.take (i + 1)),
            List.flatten (List.replicate S.prod (sps.tail.getD i []))) = _
        rw [tail_getD, List.append_assoc]
        rfl

theorem resolveOne_proj (S : List Nat) (swIds : List String) (n : String)
    (A : List Nat) (names : List String) (sps : List (List Rat)) (st : ResolveSt) :
    (resolveOne S swIds n A names sps st).arrays.map proj =
      st.arrays.map proj ++ ((List.range A.length).map (fun i =>
        (Role.setpoint, S ++ A.take (i + 1),
         List.flatten (List.replicate S.prod (sps.getD i [])))) ++
        [(Role.measured, S ++ A, ([] : List Rat))]) := by
  show ((addArray (resolveSPs S [] A names sps st).1 n Role.measured (S ++ A) []
      (swIds ++ (resolveSPs S [] A names sps st).2)).1.arrays).map proj = _
  rw [addArray_arrays, List.map_append, resolveSPs_proj, List.append_assoc]
  simp [proj]

theorem resolveItems_proj (S : List Nat) (swIds : List String) (items : List MItem) :
    ∀ st : ResolveSt,
    (resolveItems S swIds items st).arrays.map proj =
      st.arrays.map proj ++ items.flatMap (fun it =>
        (List.range it.shape.length).map (fun i =>
          (Role.setpoint, S ++ it.shape.take (i + 1),
           List.flatten (List.replicate S.prod (it.sps.getD i [])))) ++
        [(Role.measured, S ++ it.shape, ([] : List Rat))]) := by
  induction items with
  | nil => intro st; simp [resolveItems]
  | cons it rest ih =>
      intro st
      show (resolveItems S swIds rest
        (resolveOne S swIds it.name it.shape it.spNames it.sps st)).arrays.map proj = _
      rw [ih, resolveOne_proj, List.flatMap_cons, List.append_assoc]

theorem resolveSweepAux_len (S : List Nat) (sweep : List (String × List Rat)) :
    ∀ (d : Nat) (st : ResolveSt),
    (resolveSweepAux S sweep d st).1.arrays.length = st.arrays.length + sweep.length := by
  induction sweep with
  | nil => intro d st; simp [resolveSweepAux]
  | cons ax rest ih =>
      intro d st
      show (resolveSweepAux S rest (d + 1)
        (addArray st (ax.1 ++ "_set") Role.setpoint (S.take (d + 1))
          (List.flatten (List.replicate ((S.take d).prod) ax.2)) []).1).1.arrays.length = _
      rw [ih, addArray_arrays, List.length_append]
      simp
      omega

theorem combos_length (axes : List (String × List Rat)) :
    (combos axes).length = (sweepShape axes).prod := by
  have h1 : (combos axes).length =
      (idxCombos (axes.map (fun ax => ax.2.length))).length := by
    simp [combos]
  have h2 := congrArg List.length
    (idxCombos_rank (axes.map (fun ax => ax.2.length)))
  simp only [List.length_map, List.length_range] at h2
  rw [h1, h2]
  rfl

theorem resolve_sweep_len (sweep : List (String × List Rat)) :
    ((resolveSweepAux (sweepShape sweep) sweep 0 ⟨[], []⟩).1.arrays).length =
      sweep.length := by
  rw [resolveSweepAux_len]
  simp

theorem resolve_single_array_proj (sweep : List (String × List Rat)) (n : String)
    (A : List Nat) (names : List String) (sps : List (List Rat)) :
    ((resolve sweep [ParamKind.array n A names sps]).drop sweep.length).map proj =
      (List.range A.length).map (fun i =>
        (Role.setpoint, sweepShape sweep ++ A.take (i + 1),
         List.flatten (List.replicate (sweepShape sweep).prod (sps.getD i [])))) ++
      [(Role.measured, sweepShape sweep ++ A, ([] : List Rat))] := by
  have h0 : resolve sweep [ParamKind.array n A names sps] =
      (resolveOne (sweepShape sweep)
        (resolveSweepAux (sweepShape sweep) sweep 0 ⟨[], []⟩).2 n A names sps
        (resolveSweepAux (sweepShape sweep) sweep 0 ⟨[], []⟩).1).arrays := rfl
  rw [h0, List.map_drop, resolveOne_proj]
  have h1 : (List.map proj
      (resolveSweepAux (sweepShape sweep) sweep 0 ⟨[], []⟩).1.arrays).length =
      sweep.length := by
    rw [List.length_map, resolve_sweep_len]
  rw [← h1, List.drop_left]

theorem c1_help_take0 (S : List Nat) : S ++ ([] : List Nat) = S := List.append_nil S

theorem resolve_single_scalar_proj (sweep : List (String × List Rat)) (n : String) :
    ((resolve sweep [ParamKind.scalar n]).drop sweep.length).map proj =
      [(Role.measured, sweepShape sweep, ([] : List Rat))] := by
  have h0 : resolve sweep [ParamKind.scalar n] =
      resolve sweep [ParamKind.array n [] [] []] := rfl
  rw [h0, resolve_single_array_proj]
  simp

theorem resolve_single_multi_proj (sweep : List (String × List Rat)) (nm : String)
    (items : List MItem) :
    ((resolve sweep [ParamKind.multi nm items]).drop sweep.length).map proj =
      items.flatMap (fun it =>
        (List.range it.shape.length).map (fun i =>
          (Role.setpoint, sweepShape sweep ++ it.shape.take (i + 1),
           List.flatten (List.replicate (sweepShape sweep).prod (it.sps.getD i [])))) ++
        [(Role.measured, sweepShape sweep ++ it.shape, ([] : List Rat))]) := by
  have h0 : resolve sweep [ParamKind.multi nm items] =
      (resolveItems (sweepShape sweep)
        (resolveSweepAux (sweepShape sweep) sweep 0 ⟨[], []⟩).2 items
        (resolveSweepAux (sweepShape sweep) sweep 0 ⟨[], []⟩).1).arrays := rfl
  rw [h0, List.map_drop, resolveItems_proj]
  have h1 : (List.map proj
      (resolveSweepAux (sweepShape sweep) sweep 0 ⟨[], []⟩).1.arrays).length =
      sweep.length := by
    rw [List.length_map, resolve_sweep_len]
  rw [← h1, List.drop_left]

/-- C1: for every sweep specification with axis lengths `(n1,…,nk)` and a
scalar action parameter, the resolved Measured array has shape exactly
`(n1,…,nk)` and the run fills it with one value per sweep combination;
concretely, sweeping `c` over `[0,2,4,6,8]` with scalar action `c2` gives a
Setpoint array `c_set` of shape `(5,)` holding `[0,2,4,6,8]` and a Measured
array `c2` of shape `(5,)`, filled by the run with five values. -/
theorem c1_scalar_sweep_shape :
    (∀ (sweep : List (String × List Rat)) (n : String),
      ((resolve sweep [ParamKind.scalar n]).drop sweep.length).map proj =
        [(Role.measured, sweepShape sweep, ([] : List Rat))]) ∧
    (∀ (σ : Type) (act : ActionP σ) (s : σ) (sweep : List (String × List Rat)),
      (∀ s2 : σ, ((act.get s2).1).length = 1) →
      (measuredData (loopRun sweep [act] s) 0).length = (sweepShape sweep).prod) ∧
    resolve cSweep [ParamKind.scalar "c2"] =
      [⟨"c_set", Role.setpoint, [5], [0, 2, 4, 6, 8], []⟩,
       ⟨"c2", Role.measured, [5], [], ["c_set"]⟩] ∧
    measuredData (loopRun cSweep [counterAction "c2"] 22) 0 = [23, 24, 25, 26, 27] := by
  refine ⟨resolve_single_scalar_proj, ?_, by decide, by with_unfolding_all rfl⟩
  intro σ act s sweep h
  show (measuredData (runCombos [act] (combos sweep) s) 0).length = _
  rw [runCombos_single_len act h, combos_length]

/-- Witness for the quantified run conjunct of C1 at the concrete
`MyCounter` sweep. -/
theorem c1_scalar_sweep_shape_witness :
    (measuredData (loopRun cSweep [counterAction "c2"] (22 : Rat)) 0).length =
      (sweepShape cSweep).prod :=
  c1_scalar_sweep_shape.2.1 Rat (counterAction "c2") 22 cSweep (fun _ => rfl)

/-- C2: an ArrayParameter action of declared shape `A` nested in a sweep of
shape `S` resolves to one Measured array of shape `S ++ A`, and its axis-`i`
setpoint array has shape `S ++ A.take (i+1)` with the declared sequence
tiled across the sweep; concretely, the `(3,2)` ArrayCounter in the 5-step
sweep gives Measured shape `(5,3,2)`, `index0` of shape `(5,3)` tiling
`(0,1,2)` and `index1` of shape `(5,3,2)` tiling `(0,1)`. -/
theorem c2_array_nested_shapes :
    (∀ (sweep : List (String × List Rat)) (n : String) (A : List Nat)
        (names : List String) (sps : List (List Rat)),
      ((resolve sweep [ParamKind.array n A names sps]).drop sweep.length).map proj =
        (List.range A.length).map (fun i =>
          (Role.setpoint, sweepShape sweep ++ A.take (i + 1),
           List.flatten (List.replicate (sweepShape sweep).prod (sps.getD i [])))) ++
        [(Role.measured, sweepShape sweep ++ A, ([] : List Rat))]) ∧
    resolve cSweep [acParam] =
      [⟨"c_set", Role.setpoint, [5], [0, 2, 4, 6, 8], []⟩,
       ⟨"index0", Role.setpoint, [5, 3],
         List.flatten (List.replicate 5 [0, 1, 2]), []⟩,
       ⟨"index1", Role.setpoint, [5, 3, 2],
         List.flatten (List.replicate 5 [0, 1, 0, 1, 0, 1]), []⟩,
       ⟨"array_counter", Role.measured, [5, 3, 2], [],
         ["c_set", "index0", "index1"]⟩] := by
  exact ⟨resolve_single_array_proj, by decide⟩

/-- C3: a MultiParameter action resolves to one Measured array per
sub-item, each by that item's own shape and setpoints; concretely, the
two-scalar `single_iq` inside the 10-step `scale` sweep gives exactly one
Setpoint array `scale_set` of shape `(10,)` and two independent Measured
arrays `I` and `Q` of shape `(10,)`. -/
theorem c3_multi_per_item :
    (∀ (sweep : List (String × List Rat)) (nm : String) (items : List MItem),
      ((resolve sweep [ParamKind.multi nm items]).drop sweep.length).map proj =
        items.flatMap (fun it =>
          (List.range it.shape.length).map (fun i =>
            (Role.setpoint, sweepShape sweep ++ it.shape.take (i + 1),
             List.flatten (List.replicate (sweepShape sweep).prod (it.sps.getD i [])))) ++
          [(Role.measured, sweepShape sweep ++ it.shape, ([] : List Rat))])) ∧
    (resolve scaleSweep [iqParam]).map (fun a => (a.id, a.role, a.shape)) =
      [("scale_set", Role.setpoint, [10]),
       ("I", Role.measured, [10]),
       ("Q", Role.measured, [10])] ∧
    ((resolve scaleSweep [iqParam]).filter
      (fun a => a.role == Role.setpoint)).length = 1 := by
  refine ⟨resolve_single_multi_proj, by decide, by decide⟩

/-- C6: the Loop Executor visits the sweep combinations in row-major order
with the innermost axis varying fastest (the ranks of the visited
multi-indices are exactly `0, 1, …, prod-1` in order), and per combination
its trace is the `set` calls followed by exactly one `get` per action,
strictly sequentially; consequently the ArrayCounter started at 12 in the
5-step sweep fills its blocks in outer order 12–17, 18–23, 24–29, 30–35,
36–41. -/
theorem c6_row_major_order :
    (∀ dims : List Nat,
      (idxCombos dims).map (rowRank dims) = List.range dims.prod) ∧
    (∀ (σ : Type) (axes : List (String × List Rat)) (acts : List (ActionP σ)) (s : σ),
      (loopRun axes acts s).1 = (combos axes).flatMap (fun c =>
        c.map (fun pv => Event.setE pv.1 pv.2) ++
          acts.map (fun a => Event.getE a.name))) ∧
    (loopRun cSweep [acAction] (12 : Rat)).2.1 =
      [[[12, 13, 14, 15, 16, 17]], [[18, 19, 20, 21, 22, 23]],
       [[24, 25, 26, 27, 28, 29]], [[30, 31, 32, 33, 34, 35]],
       [[36, 37, 38, 39, 40, 41]]] := by
  refine ⟨idxCombos_rank, ?_, by with_unfolding_all rfl⟩
  intro σ axes acts s
  exact runCombos_events acts (combos axes) s

/-- C9: `change_kernel_size(ks)` with even `ks` updates the kernel size,
setpoints and declared shape by the construction formulas (shape becomes
`antiderivative_length - 1 - ks`); with odd `ks` it raises `ValueError` and
leaves the whole state unchanged. -/
theorem c9_change_kernel_size (p : SmoothDeriv) (k : Int) :
    (Int.emod k 2 = 0 →
      changeKernelSize p k =
        ({ p with
            ks := k
            sp := pySlice p.adSetpoints (Int.fdiv k 2) (Int.fdiv (-k) 2 - 1)
            shape0 := p.adShape0 - 1 - k }, none)) ∧
    (Int.emod k 2 ≠ 0 →
      changeKernelSize p k = (p, some "Kernel size must be an even integer")) ∧
    (p.adShape0 = p.adSetpoints.length → Int.emod k 2 = 0 →
      (changeKernelSize p k).1.shape0 = (p.adSetpoints.length : Int) - 1 - k) := by
  refine ⟨fun h => ?_, fun h => ?_, fun hl h => ?_⟩
  · simp [changeKernelSize, h]
  · simp [changeKernelSize, h]
  · simp [changeKernelSize, h, ← hl]

/-- Witness for C9 on a concrete SmoothDerivative: kernel size 4 succeeds
with the recomputed fields, kernel size 3 fails and leaves the state as
constructed. -/
theorem c9_change_kernel_size_witness :
    changeKernelSize (mkSmoothDeriv [0, 1, 2, 3] 4 2) 4 =
      ({ mkSmoothDeriv [0, 1, 2, 3] 4 2 with
          ks := 4
          sp := pySlice [0, 1, 2, 3] (Int.fdiv 4 2) (Int.fdiv (-4) 2 - 1)
          shape0 := -1 }, none) ∧
    changeKernelSize (mkSmoothDeriv [0, 1, 2, 3] 4 2) 3 =
      (mkSmoothDeriv [0, 1, 2, 3] 4 2, some "Kernel size must be an even integer") := by
  constructor
  · have h := (c9_change_kernel_size (mkSmoothDeriv [0, 1, 2, 3] 4 2) 4).1 (by decide)
    rw [h]
    decide
  · exact (c9_change_kernel_size (mkSmoothDeriv [0, 1, 2, 3] 4 2) 3).2.1 (by decide)

/-- C5 counterexample: on the SmoothDerivative built over 4 antiderivative
setpoints with kernel size 2 the length/shape invariant holds, yet
`change_kernel_size(4)` succeeds (an even kernel) and afterwards the
setpoint sequence has length 0 while the declared shape entry is -1: the
invariant is not preserved across every successful call. -/
theorem c5_setpoint_length_cex :
    spInv (mkSmoothDeriv [0, 1, 2, 3] 4 2).shape0 (mkSmoothDeriv [0, 1, 2, 3] 4 2).sp ∧
    (changeKernelSize (mkSmoothDeriv [0, 1, 2, 3] 4 2) 4).2 = none ∧
    ¬ spInv (changeKernelSize (mkSmoothDeriv [0, 1, 2, 3] 4 2) 4).1.shape0
        (changeKernelSize (mkSmoothDeriv [0, 1, 2, 3] 4 2) 4).1.sp := by
  refine ⟨by decide, by decide, by decide⟩

/-- C5 as amended: with the kernel size nonnegative and smaller than the
antiderivative length, `Derivative` and `SmoothDerivative` establish
`len(setpoints[0]) = shape[0]` at construction and every successful
`change_kernel_size` call preserves it. -/
theorem c5_setpoint_length_inv :
    (∀ (adSp : List Rat) (adShape0 : Int),
      adShape0 = adSp.length → 1 ≤ adSp.length →
      spInv (mkDerivative adSp adShape0).shape0 (mkDerivative adSp adShape0).sp) ∧
    (∀ (adSp : List Rat) (adShape0 k : Int),
      adShape0 = adSp.length → 0 ≤ k → k < adSp.length →
      spInv (mkSmoothDeriv adSp adShape0 k).shape0 (mkSmoothDeriv adSp adShape0 k).sp) ∧
    (∀ (p : SmoothDeriv) (k : Int),
      p.adShape0 = p.adSetpoints.length → 0 ≤ k → k < p.adSetpoints.length →
      (changeKernelSize p k).2 = none →
      spInv (changeKernelSize p k).1.shape0 (changeKernelSize p k).1.sp) := by
  refine ⟨?_, ?_, ?_⟩
  · intro adSp adShape0 hl h1
    show ((pySlice adSp 0 (-1)).length : Int) = adShape0 - 1
    rw [pySlice_length]
    omega
  · intro adSp adShape0 k hl hk0 hkn
    show ((pySlice adSp (Int.fdiv k 2) (Int.fdiv (-k) 2 - 1)).length : Int) =
      adShape0 - 1 - k
    rw [smooth_slice_length adSp k hk0 hkn]
    omega
  · intro p k hl hk0 hkn hok
    by_cases h : Int.emod k 2 = 0
    · have he := (c9_change_kernel_size p k).1 h
      rw [he]
      show ((pySlice p.adSetpoints (Int.fdiv k 2) (Int.fdiv (-k) 2 - 1)).length : Int) =
        p.adShape0 - 1 - k
      rw [smooth_slice_length p.adSetpoints k hk0 hkn]
      omega
    · exfalso
      have he := (c9_change_kernel_size p k).2.1 h
      rw [he] at hok
      simp at hok

theorem flatten_const_len (bs : Nat) :
    ∀ blks : List (List Rat), (∀ b ∈ blks, b.length = bs) →
      blks.flatten.length = blks.length * bs := by
  intro blks
  induction blks with
  | nil => intro _; simp
  | cons b rest ih =>
      intro h
      rw [List.flatten_cons, List.length_append, ih (fun x hx => h x (by simp [hx])),
        h b (by simp), List.length_cons]
      ring

theorem allocate_eq_mkFilled (total bs : Nat) :
    allocateDS total bs = mkFilled total bs [] := by
  simp [allocateDS, mkFilled]

theorem writeBlock_mkFilled (total bs : Nat) (blks : List (List Rat)) (blk : List Rat)
    (hb : ∀ b ∈ blks, b.length = bs) (_hk : blk.length = bs)
    (_hlt : blks.length < total) :
    writeBlock (mkFilled total bs blks) blk = mkFilled total bs (blks ++ [blk]) := by
  have hf : blks.flatten.length = blks.length * bs := flatten_const_len bs blks hb
  have hfm : (blks.flatten.map some).length = blks.length * bs := by
    rw [List.length_map, hf]
  have h2 : (blks ++ [blk]).flatten = blks.flatten ++ blk := by
    rw [List.flatten_append]
    simp
  simp only [writeBlock, mkFilled]
  rw [← hfm, List.take_left, List.drop_append, List.drop_replicate]
  congr 1
  · rw [h2, List.map_append, List.length_append, Nat.sub_sub]
  · rw [List.length_append]
    rfl

theorem runPure_length {σ : Type} (act : σ → Except String (List Rat × σ)) :
    ∀ (j : Nat) (s : σ) (blks : List (List Rat)) (sj : σ),
      runPure act j s = some (blks, sj) → blks.length = j := by
  intro j
  induction j with
  | zero =>
      intro s blks sj h
      simp [runPure] at h
      simp [h.1]
  | succ j ih =>
      intro s blks sj h
      simp only [runPure] at h
      cases hact : act s with
      | error e => simp [hact] at h
      | ok p =>
          simp only [hact] at h
          cases hrec : runPure act j p.2 with
          | none => rw [hrec] at h; simp at h
          | some q =>
              rw [hrec] at h
              simp at h
              rw [← h.1, List.length_cons, ih p.2 q.1 q.2 (by rw [hrec])]

theorem runE_reach {σ : Type} (act : σ → Except String (List Rat × σ))
    (bs total : Nat) :
    ∀ (j : Nat) (s : σ) (blks : List (List Rat)) (sj : σ) (n : Nat)
      (pre : List (List Rat)),
    runPure act j s = some (blks, sj) →
    (∀ b ∈ blks, b.length = bs) → (∀ b ∈ pre, b.length = bs) →
    pre.length + j ≤ total → j ≤ n →
    runStepsE act n s (mkFilled total bs pre) =
      runStepsE act (n - j) sj (mkFilled total bs (pre ++ blks)) := by
  intro j
  induction j with
  | zero =>
      intro s blks sj n pre hp _ _ _ _
      simp [runPure] at hp
      rw [hp.1, hp.2]
      simp
  | succ j ih =>
      intro s blks sj n pre hp hb hpre hle hjn
      simp only [runPure] at hp
      cases hact : act s with
      | error e => simp [hact] at hp
      | ok p =>
          simp only [hact] at hp
          cases hrec : runPure act j p.2 with
          | none => rw [hrec] at hp; simp at hp
          | some q =>
              rw [hrec] at hp
              simp at hp
              obtain ⟨hblks, hq⟩ := hp
              cases n with
              | zero => omega
              | succ m =>
                  have hstep : runStepsE act (m + 1) s (mkFilled total bs pre) =
                      runStepsE act m p.2 (writeBlock (mkFilled total bs pre) p.1) := by
                    simp [runStepsE, hact]
                  rw [hstep, writeBlock_mkFilled total bs pre p.1 hpre
                    (by apply hb; rw [← hblks]; simp) (by omega)]
                  have ihx := ih p.2 q.1 q.2 m (pre ++ [p.1]) (by rw [hrec])
                    (fun b hx => hb b (by rw [← hblks]; simp [hx]))
                    (by
                      intro b hx
                      rcases List.mem_append.1 hx with h1 | h1
                      · exact hpre b h1
                      · have : b = p.1 := by simpa using h1
                        rw [this]
                        apply hb
                        rw [← hblks]
                        simp)
                    (by simp; omega) (by omega)
                  rw [ihx, ← hblks, hq]
                  have hasc : (pre ++ [p.1]) ++ q.1 = pre ++ (p.1 :: q.1) := by
                    rw [List.append_assoc]
                    rfl
                  rw [hasc]
                  congr 1
                  omega

theorem planIds_append (bs1 : List String) :
    ∀ (used : List String) (bs2 : List String),
    planIds used (bs1 ++ bs2) =
      planIds used bs1 ++ planIds (used ++ planIds used bs1) bs2 := by
  induction bs1 with
  | nil => intro used bs2; simp [planIds]
  | cons b bs ih =>
      intro used bs2
      show freshId used b :: planIds (used ++ [freshId used b]) (bs ++ bs2) = _
      rw [ih]
      show _ = freshId used b ::
        (planIds (used ++ [freshId used b]) bs ++
          planIds (used ++ (freshId used b :: planIds (used ++ [freshId used b]) bs)) bs2)
      have hasc : (used ++ [freshId used b]) ++ planIds (used ++ [freshId used b]) bs =
          used ++ (freshId used b :: planIds (used ++ [freshId used b]) bs) := by
        rw [List.append_assoc]
        rfl
      rw [hasc]

theorem addArray_used (st : ResolveSt) (b : String) (r : Role) (sh : List Nat)
    (da : List Rat) (ids : List String) :
    (addArray st b r sh da ids).1.used = st.used ++ [freshId st.used b] := rfl

theorem resolveSweepAux_ids (S : List Nat) (sweep : List (String × List Rat)) :
    ∀ (d : Nat) (st : ResolveSt),
    (resolveSweepAux S sweep d st).1.used =
      st.used ++ planIds st.used (sweep.map (fun ax => ax.1 ++ "_set")) ∧
    (resolveSweepAux S sweep d st).1.arrays.map (fun a => a.id) =
      st.arrays.map (fun a => a.id) ++
        planIds st.used (sweep.map (fun ax => ax.1 ++ "_set")) := by
  induction sweep with
  | nil => intro d st; simp [resolveSweepAux, planIds]
  | cons ax rest ih =>
      intro d st
      have hrec := ih (d + 1)
        (addArray st (ax.1 ++ "_set") Role.setpoint (S.take (d + 1))
          (List.flatten (List.replicate ((S.take d).prod) ax.2)) []).1
      constructor
      · show (resolveSweepAux S rest (d + 1) _).1.used = _
        rw [hrec.1, addArray_used, List.append_assoc]
        rfl
      · show (resolveSweepAux S rest (d + 1) _).1.arrays.map (fun a => a.id) = _
        rw [hrec.2, addArray_arrays, addArray_used, List.map_append, List.append_assoc]
        rfl

theorem resolveSPs_ids (S : List Nat) (axes : List Nat) :
    ∀ (names : List String) (sps : List (List Rat)) (st : ResolveSt) (pre : List Nat),
    (resolveSPs S pre axes names sps st).1.used =
      st.used ++ planIds st.used (basesSP axes.length names) ∧
    (resolveSPs S pre axes names sps st).1.arrays.map (fun a => a.id) =
      st.arrays.map (fun a => a.id) ++ planIds st.used (basesSP axes.length names) := by
  induction axes with
  | nil => intro names sps st pre; simp [resolveSPs, basesSP, planIds]
  | cons a arest ih =>
      intro names sps st pre
      have hrec := ih names.tail sps.tail
        (addArray st (names.headD "index") Role.setpoint (S ++ (pre ++ [a]))
          (List.flatten (List.replicate S.prod (sps.headD []))) []).1 (pre ++ [a])
      constructor
      · show (resolveSPs S (pre ++ [a]) arest names.tail sps.tail _).1.used = _
        rw [hrec.1, addArray_used, List.append_assoc]
        rfl
      · show (resolveSPs S (pre ++ [a]) arest names.tail sps.tail _).1.arrays.map
          (fun a => a.id) = _
        rw [hrec.2, addArray_arrays, addArray_used, List.map_append, List.append_assoc]
        rfl

theorem resolveOne_ids (S : List Nat) (swIds : List String) (n : String)
    (A : List Nat) (names : List String) (sps : List (List Rat)) (st : ResolveSt) :
    (resolveOne S swIds n A names sps st).used =
      st.used ++ planIds st.used (basesOne n A.length names) ∧
    (resolveOne S swIds n A names sps st).arrays.map (fun a => a.id) =
      st.arrays.map (fun a => a.id) ++ planIds st.used (basesOne n A.length names) := by
  have hsp := resolveSPs_ids S A names sps st []
  have h1 : (resolveOne S swIds n A names sps st).used =
      (resolveSPs S [] A names sps st).1.used ++
        [freshId (resolveSPs S [] A names sps st).1.used n] := rfl
  have h2 : (resolveOne S swIds n A names sps st).arrays.map (fun a => a.id) =
      (resolveSPs S [] A names sps st).1.arrays.map (fun a => a.id) ++
        [freshId (resolveSPs S [] A names sps st).1.used n] := by
    show ((addArray (resolveSPs S [] A names sps st).1 n Role.measured (S ++ A) []
      (swIds ++ (resolveSPs S [] A names sps st).2)).1.arrays).map (fun a => a.id) = _
    rw [addArray_arrays, List.map_append]
    rfl
  have hplan : planIds st.used (basesOne n A.length names) =
      planIds st.used (basesSP A.length names) ++
        [freshId (st.used ++ planIds st.used (basesSP A.length names)) n] := by
    rw [basesOne, planIds_append]
    rfl
  constructor
  · rw [h1, hsp.1, hplan, ← List.append_assoc]
  · rw [h2, hsp.2, hsp.1, hplan, ← List.append_assoc]

theorem resolveItems_ids (S : List Nat) (swIds : List String) (items : List MItem) :
    ∀ st : ResolveSt,
    (resolveItems S swIds items st).used =
      st.used ++ planIds st.used (items.flatMap (fun it =>
        basesOne it.name it.shape.length it.spNames)) ∧
    (resolveItems S swIds items st).arrays.map (fun a => a.id) =
      st.arrays.map (fun a => a.id) ++ planIds st.used (items.flatMap (fun it =>
        basesOne it.name it.shape.length it.spNames)) := by
  induction items with
  | nil => intro st; simp [resolveItems, planIds]
  | cons it rest ih =>
      intro st
      have h1 := resolveOne_ids S swIds it.name it.shape it.spNames it.sps st
      have hrec := ih (resolveOne S swIds it.name it.shape it.spNames it.sps st)
      have hplan : planIds st.used ((it :: rest).flatMap (fun x =>
          basesOne x.name x.shape.length x.spNames)) =
          planIds st.used (basesOne it.name it.shape.length it.spNames) ++
            planIds (st.used ++ planIds st.used
              (basesOne it.name it.shape.length it.spNames))
              (rest.flatMap (fun x => basesOne x.name x.shape.length x.spNames)) := by
        rw [List.flatMap_cons, planIds_append]
      constructor
      · show (resolveItems S swIds rest _).used = _
        rw [hrec.1, h1.1, hplan, List.append_assoc]
      · show (resolveItems S swIds rest _).arrays.map (fun a => a.id) = _
        rw [hrec.2, h1.2, h1.1, hplan, List.append_assoc]

theorem resolveActions_ids (S : List Nat) (swIds : List String)
    (actions : List ParamKind) : ∀ st : ResolveSt,
    (resolveActions S swIds actions st).used =
      st.used ++ planIds st.used (actions.flatMap basesAction) ∧
    (resolveActions S swIds actions st).arrays.map (fun a => a.id) =
      st.arrays.map (fun a => a.id) ++
        planIds st.used (actions.flatMap basesAction) := by
  induction actions with
  | nil => intro st; simp [resolveActions, planIds]
  | cons a rest ih =>
      intro st
      have hplan : ∀ st2 : ResolveSt, planIds st2.used ((a :: rest).flatMap basesAction) =
          planIds st2.used (basesAction a) ++
            planIds (st2.used ++ planIds st2.used (basesAction a))
              (rest.flatMap basesAction) := by
        intro st2
        rw [List.flatMap_cons, planIds_append]
      cases a with
      | scalar nm =>
          have h1 := resolveOne_ids S swIds nm [] [] [] st
          have hrec := ih (resolveOne S swIds nm [] [] [] st)
          refine ⟨?_, ?_⟩
          · show (resolveActions S swIds rest _).used = _
            rw [hrec.1, h1.1, hplan st, List.append_assoc]
            rfl
          · show (resolveActions S swIds rest _).arrays.map (fun a => a.id) = _
            rw [hrec.2, h1.2, h1.1, hplan st, List.append_assoc]
            rfl
      | array nm A names sps =>
          have h1 := resolveOne_ids S swIds nm A names sps st
          have hrec := ih (resolveOne S swIds nm A names sps st)
          refine ⟨?_, ?_⟩
          · show (resolveActions S swIds rest _).used = _
            rw [hrec.1, h1.1, hplan st, List.append_assoc]
            rfl
          · show (resolveActions S swIds rest _).arrays.map (fun a => a.id) = _
            rw [hrec.2, h1.2, h1.1, hplan st, List.append_assoc]
            rfl
      | multi nm items =>
          have h1 := resolveItems_ids S swIds items st
          have hrec := ih (resolveItems S swIds items st)
          refine ⟨?_, ?_⟩
          · show (resolveActions S swIds rest _).used = _
            rw [hrec.1, h1.1, hplan st, List.append_assoc]
            rfl
          · show (resolveActions S swIds rest _).arrays.map (fun a => a.id) = _
            rw [hrec.2, h1.2, h1.1, hplan st, List.append_assoc]
            rfl

theorem resolve_ids (sweep : List (String × List Rat)) (actions : List ParamKind) :
    (resolve sweep actions).map (fun a => a.id) =
      planIds [] (resolveBases sweep actions) := by
  have hsw := resolveSweepAux_ids (sweepShape sweep) sweep 0 ⟨[], []⟩
  have hac := resolveActions_ids (sweepShape sweep)
    (resolveSweepAux (sweepShape sweep) sweep 0 ⟨[], []⟩).2 actions
    (resolveSweepAux (sweepShape sweep) sweep 0 ⟨[], []⟩).1
  show (resolveActions (sweepShape sweep)
    (resolveSweepAux (sweepShape sweep) sweep 0 ⟨[], []⟩).2 actions
    (resolveSweepAux (sweepShape sweep) sweep 0 ⟨[], []⟩).1).arrays.map (fun a => a.id) = _
  rw [hac.2, hsw.2, hsw.1, resolveBases, planIds_append]
  simp

theorem append_one_ne (n : String) : n ++ "_1" ≠ n := by
  intro heq
  have h2 := congrArg String.length heq
  rw [String.length_append] at h2
  have h3 : ("_1" : String).length = 2 := rfl
  rw [h3] at h2
  omega

theorem candId_one (m : String) : candId m 1 = m ++ "_1" := by
  show m ++ "_" ++ toString (0 + 1) = m ++ "_1"
  rw [String.append_assoc]
  rfl

theorem freshId_nil (b : String) : freshId [] b = b := by
  simp [freshId, freshFrom, candId]

/-- C8: two actions sharing a name get array ids `name` and `name_1` (the
smallest unused suffix), and the whole id assignment is a deterministic
function of the name/arity skeleton of the specification alone, hence
identical across repeated runs and repeated resolutions of the same
specification. -/
theorem c8_collision_determinism :
    (∀ (p : String) (vals : List Rat) (n : String),
      n ≠ p ++ "_set" → n ++ "_1" ≠ p ++ "_set" →
      (resolve [(p, vals)] [ParamKind.scalar n, ParamKind.scalar n]).map
        (fun a => a.id) = [p ++ "_set", n, n ++ "_1"]) ∧
    (∀ (sweep : List (String × List Rat)) (actions : List ParamKind),
      (resolve sweep actions).map (fun a => a.id) =
        planIds [] (resolveBases sweep actions)) ∧
    (∀ (sweep sweep2 : List (String × List Rat)) (actions actions2 : List ParamKind),
      resolveBases sweep actions = resolveBases sweep2 actions2 →
      (resolve sweep actions).map (fun a => a.id) =
        (resolve sweep2 actions2).map (fun a => a.id)) := by
  refine ⟨?_, resolve_ids, ?_⟩
  · intro p vals n h1 h2
    rw [resolve_ids]
    have hb : resolveBases [(p, vals)] [ParamKind.scalar n, ParamKind.scalar n] =
        [p ++ "_set", n, n] := rfl
    rw [hb]
    have hf2 : freshId [p ++ "_set"] n = n := by
      have hm : candId n 0 ∉ [p ++ "_set"] := by simp [candId, h1]
      show (if candId n 0 ∈ [p ++ "_set"] then freshFrom [p ++ "_set"] n 1 1
        else candId n 0) = n
      rw [if_neg hm]
      rfl
    have hm0 : candId n 0 ∈ [p ++ "_set", n] := by simp [candId]
    have hm1 : candId n 1 ∉ [p ++ "_set", n] := by
      rw [candId_one]
      simp [h2, append_one_ne n]
    have hf3 : freshId [p ++ "_set", n] n = n ++ "_1" := by
      show (if candId n 0 ∈ [p ++ "_set", n] then freshFrom [p ++ "_set", n] n 2 1
        else candId n 0) = n ++ "_1"
      rw [if_pos hm0]
      show (if candId n 1 ∈ [p ++ "_set", n] then freshFrom [p ++ "_set", n] n 1 2
        else candId n 1) = n ++ "_1"
      rw [if_neg hm1, candId_one]
    simp only [planIds, List.nil_append, freshId_nil]
    rw [hf2]
    have hnorm : ([p ++ "_set"] ++ [n] : List String) = [p ++ "_set", n] := rfl
    rw [hnorm, hf3]
  · intro sweep sweep2 actions actions2 h
    rw [resolve_ids, resolve_ids, h]

/-- Witness for C8 at the concrete colliding specification: two scalar
actions both named `x` under the sweep parameter `c`. -/
theorem c8_collision_determinism_witness :
    (resolve [("c", [0, 2, 4, 6, 8])] [ParamKind.scalar "x", ParamKind.scalar "x"]).map
      (fun a => a.id) = ["c" ++ "_set", "x", "x" ++ "_1"] :=
  c8_collision_determinism.1 "c" [0, 2, 4, 6, 8] "x" (by decide) (by decide)

/-- C10: a single-shot `qc.Measure` of scalar gettable parameters yields a
shape-(1,) Measured array per parameter holding its `get` result plus one
shared `single_set` Setpoint array of shape `(1,)` and value `[0]`, while a
single-shot Measure of an ArrayParameter of shape `A` yields a Measured
array of shape exactly `A`, with no length-1 prefix dimension (and no
`single_set` array). -/
theorem c10_measure_shapes :
    measureResolve [ParamKind.scalar "c", ParamKind.scalar "c2"] =
      [⟨"single_set", Role.setpoint, [1], [0], []⟩,
       ⟨"c", Role.measured, [1], [], ["single_set"]⟩,
       ⟨"c2", Role.measured, [1], [], ["single_set"]⟩] ∧
    runActs [cGet, c2Get] ((8 : Rat), (27 : Rat)) =
      ([Event.getE "c", Event.getE "c2"], [[9], [28]], (9, 28)) ∧
    (∀ (n : String) (A : List Nat) (names : List String) (sps : List (List Rat)),
      (measureResolve [ParamKind.array n A names sps]).map proj =
        (List.range A.length).map (fun i =>
          (Role.setpoint, A.take (i + 1), sps.getD i [])) ++
        [(Role.measured, A, ([] : List Rat))]) ∧
    measureResolve [acParam] =
      [⟨"index0", Role.setpoint, [3], [0, 1, 2], []⟩,
       ⟨"index1", Role.setpoint, [3, 2], [0, 1, 0, 1, 0, 1], []⟩,
       ⟨"array_counter", Role.measured, [3, 2], [], ["index0", "index1"]⟩] ∧
    (∀ a ∈ measureResolve [acParam], a.id ≠ "single_set") := by
  refine ⟨by decide, by with_unfolding_all rfl, ?_, by decide, by decide⟩
  intro n A names sps
  have h0 : measureResolve [ParamKind.array n A names sps] =
      (resolveOne [] [] n A names sps ⟨[], []⟩).arrays := rfl
  rw [h0, resolveOne_proj]
  simp

theorem shapePre_trans {a b c : List Nat} (h1 : shapePre a b) (h2 : shapePre b c) :
    shapePre a c := by
  obtain ⟨t1, ht1⟩ := h1
  obtain ⟨t2, ht2⟩ := h2
  exact ⟨t1 ++ t2, by rw [← List.append_assoc, ht1, ht2]⟩

theorem shapePre_take (S : List Nat) (k : Nat) : shapePre (S.take k) S :=
  ⟨S.drop k, List.take_append_drop k S⟩

theorem shapePre_append_right (S a : List Nat) : shapePre S (S ++ a) := ⟨a, rfl⟩

theorem shapePre_app (S : List Nat) {x y : List Nat} (h : shapePre x y) :
    shapePre (S ++ x) (S ++ y) := by
  obtain ⟨t, ht⟩ := h
  exact ⟨t, by rw [List.append_assoc, ht]⟩

theorem depOK_mono {arrays : List ResolvedArray} {T : List ResolvedArray}
    {m : ResolvedArray} (h : depOK arrays m) : depOK (arrays ++ T) m := by
  intro sid hs
  obtain ⟨sp, hm, h1, h2, h3⟩ := h sid hs
  exact ⟨sp, List.mem_append_left T hm, h1, h2, h3⟩

theorem idsBelow_mono {arrays T : List ResolvedArray} {ids : List String}
    {b : List Nat} (h : idsBelow arrays ids b) : idsBelow (arrays ++ T) ids b := by
  intro i hi
  obtain ⟨sp, hm, h1, h2, h3⟩ := h i hi
  exact ⟨sp, List.mem_append_left T hm, h1, h2, h3⟩

theorem idsBelow_weaken {arrays : List ResolvedArray} {ids : List String}
    {b b2 : List Nat} (h : idsBelow arrays ids b) (hb : shapePre b b2) :
    idsBelow arrays ids b2 := by
  intro i hi
  obtain ⟨sp, hm, h1, h2, h3⟩ := h i hi
  exact ⟨sp, hm, h1, h2, shapePre_trans h3 hb⟩

theorem idsBelow_append {arrays : List ResolvedArray} {ids1 ids2 : List String}
    {b : List Nat} (h1 : idsBelow arrays ids1 b) (h2 : idsBelow arrays ids2 b) :
    idsBelow arrays (ids1 ++ ids2) b := by
  intro i hi
  rcases List.mem_append.1 hi with h | h
  · exact h1 i h
  · exact h2 i h

theorem invOK_addArray (st : ResolveSt) (b : String) (r : Role) (sh : List Nat)
    (da : List Rat) (ids : List String) (hinv : invOK st.arrays)
    (hdep : r = Role.measured → idsBelow st.arrays ids sh) :
    invOK ((addArray st b r sh da ids).1.arrays) := by
  rw [addArray_arrays]
  intro m hm hrole
  rcases List.mem_append.1 hm with h | h
  · exact depOK_mono (hinv m h hrole)
  · have hx : m = ⟨freshId st.used b, r, sh, da, ids⟩ := by simpa using h
    subst hx
    intro sid hs
    obtain ⟨sp, hmem, h1, h2, h3⟩ := hdep hrole sid hs
    exact ⟨sp, List.mem_append_left _ hmem, h1, h2, h3⟩

theorem exists_append_addArray (st : ResolveSt) (b : String) (r : Role)
    (sh : List Nat) (da : List Rat) (ids : List String) :
    ∃ T, (addArray st b r sh da ids).1.arrays = st.arrays ++ T :=
  ⟨_, addArray_arrays st b r sh da ids⟩

theorem exists_append_resolveSPs (S : List Nat) (axes : List Nat) :
    ∀ (names : List String) (sps : List (List Rat)) (st : ResolveSt) (pre : List Nat),
    ∃ T, (resolveSPs S pre axes names sps st).1.arrays = st.arrays ++ T := by
  induction axes with
  | nil => intro names sps st pre; exact ⟨[], by simp [resolveSPs]⟩
  | cons a arest ih =>
      intro names sps st pre
      obtain ⟨T1, h1⟩ := ih names.tail sps.tail
        (addArray st (names.headD "index") Role.setpoint (S ++ (pre ++ [a]))
          (List.flatten (List.replicate S.prod (sps.headD []))) []).1 (pre ++ [a])
      refine ⟨⟨freshId st.used (names.headD "index"), Role.setpoint, S ++ (pre ++ [a]),
        List.flatten (List.replicate S.prod (sps.headD [])), []⟩ :: T1, ?_⟩
      show (resolveSPs S (pre ++ [a]) arest names.tail sps.tail _).1.arrays = _
      rw [h1, addArray_arrays, List.append_assoc]
      rfl

theorem exists_append_resolveOne (S : List Nat) (swIds : List String) (n : String)
    (A : List Nat) (names : List String) (sps : List (List Rat)) (st : ResolveSt) :
    ∃ T, (resolveOne S swIds n A names sps st).arrays = st.arrays ++ T := by
  obtain ⟨T1, h1⟩ := exists_append_resolveSPs S A names sps st []
  obtain ⟨T2, h2⟩ := exists_append_addArray (resolveSPs S [] A names sps st).1 n
    Role.measured (S ++ A) [] (swIds ++ (resolveSPs S [] A names sps st).2)
  refine ⟨T1 ++ T2, ?_⟩
  show (addArray (resolveSPs S [] A names sps st).1 n Role.measured (S ++ A) []
    (swIds ++ (resolveSPs S [] A names sps st).2)).1.arrays = _
  rw [h2, h1, List.append_assoc]

theorem resolveSPs_below (S : List Nat) (axes : List Nat) :
    ∀ (names : List String) (sps : List (List Rat)) (st : ResolveSt) (pre : List Nat),
    idsBelow ((resolveSPs S pre axes names sps st).1.arrays)
      ((resolveSPs S pre axes names sps st).2) (S ++ (pre ++ axes)) := by
  induction axes with
  | nil =>
      intro names sps st pre i hi
      simp [resolveSPs] at hi
  | cons a arest ih =>
      intro names sps st pre i hi
      show ∃ sp ∈ (resolveSPs S (pre ++ [a]) arest names.tail sps.tail
        (addArray st (names.headD "index") Role.setpoint (S ++ (pre ++ [a]))
          (List.flatten (List.replicate S.prod (sps.headD []))) []).1).1.arrays, _
      have hi2 : i = freshId st.used (names.headD "index") ∨
          i ∈ (resolveSPs S (pre ++ [a]) arest names.tail sps.tail
            (addArray st (names.headD "index") Role.setpoint (S ++ (pre ++ [a]))
              (List.flatten (List.replicate S.prod (sps.headD []))) []).1).2 := by
        simpa [resolveSPs, addArray] using hi
      have hpre : shapePre (S ++ (pre ++ [a])) (S ++ (pre ++ (a :: arest))) := by
        apply shapePre_app
        apply shapePre_app
        exact ⟨arest, rfl⟩
      rcases hi2 with h | h
      · obtain ⟨T1, h1⟩ := exists_append_resolveSPs S arest names.tail sps.tail
          (addArray st (names.headD "index") Role.setpoint (S ++ (pre ++ [a]))
            (List.flatten (List.replicate S.prod (sps.headD []))) []).1 (pre ++ [a])
        refine ⟨⟨freshId st.used (names.headD "index"), Role.setpoint, S ++ (pre ++ [a]),
          List.flatten (List.replicate S.prod (sps.headD [])), []⟩, ?_, by rw [h], rfl, hpre⟩
        rw [h1, addArray_arrays]
        simp
      · have hx := ih names.tail sps.tail
          (addArray st (names.headD "index") Role.setpoint (S ++ (pre ++ [a]))
            (List.flatten (List.replicate S.prod (sps.headD []))) []).1 (pre ++ [a]) i h
        have hbnd : S ++ ((pre ++ [a]) ++ arest) = S ++ (pre ++ (a :: arest)) := by
          rw [List.append_assoc]
          rfl
        rw [hbnd] at hx
        exact hx

theorem resolveSPs_inv (S : List Nat) (axes : List Nat) :
    ∀ (names : List String) (sps : List (List Rat)) (st : ResolveSt) (pre : List Nat),
    invOK st.arrays → invOK ((resolveSPs S pre axes names sps st).1.arrays) := by
  induction axes with
  | nil => intro names sps st pre h; exact h
  | cons a arest ih =>
      intro names sps st pre h
      exact ih names.tail sps.tail _ (pre ++ [a])
        (invOK_addArray st (names.headD "index") Role.setpoint (S ++ (pre ++ [a]))
          (List.flatten (List.replicate S.prod (sps.headD []))) [] h
          (fun hr => by cases hr))

theorem resolveOne_inv (S : List Nat) (swIds : List String) (n : String)
    (A : List Nat) (names : List String) (sps : List (List Rat)) (st : ResolveSt)
    (hinv : invOK st.arrays) (hsw : idsBelow st.arrays swIds S) :
    invOK ((resolveOne S swIds n A names sps st).arrays) := by
  apply invOK_addArray _ _ _ _ _ _ (resolveSPs_inv S A names sps st [] hinv)
  intro _
  apply idsBelow_append
  · obtain ⟨T1, h1⟩ := exists_append_resolveSPs S A names sps st []
    rw [h1]
    exact idsBelow_weaken (idsBelow_mono hsw) (shapePre_append_right S A)
  · have hx := resolveSPs_below S A names sps st []
    have hbnd : S ++ (([] : List Nat) ++ A) = S ++ A := by simp
    rw [hbnd] at hx
    exact hx

theorem resolveOne_below (S : List Nat) (swIds : List String) (n : String)
    (A : List Nat) (names : List String) (sps : List (List Rat)) (st : ResolveSt)
    {ids : List String} {b : List Nat} (h : idsBelow st.arrays ids b) :
    idsBelow ((resolveOne S swIds n A names sps st).arrays) ids b := by
  obtain ⟨T, hT⟩ := exists_append_resolveOne S swIds n A names sps st
  rw [hT]
  exact idsBelow_mono h

theorem resolveItems_inv (S : List Nat) (swIds : List String) (items : List MItem) :
    ∀ st : ResolveSt, invOK st.arrays → idsBelow st.arrays swIds S →
    invOK ((resolveItems S swIds items st).arrays) := by
  induction items with
  | nil => intro st h _; exact h
  | cons it rest ih =>
      intro st h hsw
      exact ih _ (resolveOne_inv S swIds it.name it.shape it.spNames it.sps st h hsw)
        (resolveOne_below S swIds it.name it.shape it.spNames it.sps st hsw)

theorem exists_append_resolveItems (S : List Nat) (swIds : List String)
    (items : List MItem) : ∀ st : ResolveSt,
    ∃ T, (resolveItems S swIds items st).arrays = st.arrays ++ T := by
  induction items with
  | nil => intro st; exact ⟨[], by simp [resolveItems]⟩
  | cons it rest ih =>
      intro st
      obtain ⟨T1, h1⟩ := exists_append_resolveOne S swIds it.name it.shape it.spNames it.sps st
      obtain ⟨T2, h2⟩ := ih (resolveOne S swIds it.name it.shape it.spNames it.sps st)
      exact ⟨T1 ++ T2, by
        show (resolveItems S swIds rest _).arrays = _
        rw [h2, h1, List.append_assoc]⟩

theorem resolveActions_inv (S : List Nat) (swIds : List String)
    (actions : List ParamKind) : ∀ st : ResolveSt,
    invOK st.arrays → idsBelow st.arrays swIds S →
    invOK ((resolveActions S swIds actions st).arrays) := by
  induction actions with
  | nil => intro st h _; exact h
  | cons a rest ih =>
      intro st h hsw
      cases a with
      | scalar nm =>
          exact ih _ (resolveOne_inv S swIds nm [] [] [] st h hsw)
            (resolveOne_below S swIds nm [] [] [] st hsw)
      | array nm A names sps =>
          exact ih _ (resolveOne_inv S swIds nm A names sps st h hsw)
            (resolveOne_below S swIds nm A names sps st hsw)
      | multi nm items =>
          refine ih _ (resolveItems_inv S swIds items st h hsw) ?_
          obtain ⟨T, hT⟩ := exists_append_resolveItems S swIds items st
          rw [hT]
          exact idsBelow_mono hsw

theorem resolveSweepAux_inv (S : List Nat) (sweep : List (String × List Rat)) :
    ∀ (d : Nat) (st : ResolveSt), invOK st.arrays →
    invOK ((resolveSweepAux S sweep d st).1.arrays) := by
  induction sweep with
  | nil => intro d st h; exact h
  | cons ax rest ih =>
      intro d st h
      exact ih (d + 1) _
        (invOK_addArray st (ax.1 ++ "_set") Role.setpoint (S.take (d + 1))
          (List.flatten (List.replicate ((S.take d).prod) ax.2)) [] h
          (fun hr => by cases hr))

theorem exists_append_resolveSweepAux (S : List Nat) (sweep : List (String × List Rat)) :
    ∀ (d : Nat) (st : ResolveSt),
    ∃ T, (resolveSweepAux S sweep d st).1.arrays = st.arrays ++ T := by
  induction sweep with
  | nil => intro d st; exact ⟨[], by simp [resolveSweepAux]⟩
  | cons ax rest ih =>
      intro d st
      obtain ⟨T1, h1⟩ := ih (d + 1)
        (addArray st (ax.1 ++ "_set") Role.setpoint (S.take (d + 1))
          (List.flatten (List.replicate ((S.take d).prod) ax.2)) []).1
      refine ⟨⟨freshId st.used (ax.1 ++ "_set"), Role.setpoint, S.take (d + 1),
        List.flatten (List.replicate ((S.take d).prod) ax.2), []⟩ :: T1, ?_⟩
      show (resolveSweepAux S rest (d + 1) _).1.arrays = _
      rw [h1, addArray_arrays, List.append_assoc]
      rfl

theorem resolveSweepAux_below (S : List Nat) (sweep : List (String × List Rat)) :
    ∀ (d : Nat) (st : ResolveSt),
    idsBelow ((resolveSweepAux S sweep d st).1.arrays)
      ((resolveSweepAux S sweep d st).2) S := by
  induction sweep with
  | nil => intro d st i hi; simp [resolveSweepAux] at hi
  | cons ax rest ih =>
      intro d st i hi
      have hi2 : i = freshId st.used (ax.1 ++ "_set") ∨
          i ∈ (resolveSweepAux S rest (d + 1)
            (addArray st (ax.1 ++ "_set") Role.setpoint (S.take (d + 1))
              (List.flatten (List.replicate ((S.take d).prod) ax.2)) []).1).2 := by
        simpa [resolveSweepAux, addArray] using hi
      show ∃ sp ∈ (resolveSweepAux S rest (d + 1)
        (addArray st (ax.1 ++ "_set") Role.setpoint (S.take (d + 1))
          (List.flatten (List.replicate ((S.take d).prod) ax.2)) []).1).1.arrays, _
      rcases hi2 with h | h
      · obtain ⟨T1, h1⟩ := exists_append_resolveSweepAux S rest (d + 1)
          (addArray st (ax.1 ++ "_set") Role.setpoint (S.take (d + 1))
            (List.flatten (List.replicate ((S.take d).prod) ax.2)) []).1
        refine ⟨⟨freshId st.used (ax.1 ++ "_set"), Role.setpoint, S.take (d + 1),
          List.flatten (List.replicate ((S.take d).prod) ax.2), []⟩, ?_,
          by rw [h], rfl, shapePre_take S (d + 1)⟩
        rw [h1, addArray_arrays]
        simp
      · exact ih (d + 1) _ i h

/-- C4 as amended: in every resolved layout, each Setpoint array a Measured
array depends on has a shape that is a leading segment (a prefix, possibly
the whole shape) of that Measured array's shape. -/
theorem c4_setpoint_shape_pre (sweep : List (String × List Rat))
    (actions : List ParamKind) (m : ResolvedArray)
    (hm : m ∈ resolve sweep actions) (hrole : m.role = Role.measured) :
    ∀ sid ∈ m.spIds, ∃ sp ∈ resolve sweep actions,
      sp.id = sid ∧ sp.role = Role.setpoint ∧ shapePre sp.shape m.shape := by
  have hinv : invOK (resolve sweep actions) := by
    apply resolveActions_inv
    · exact resolveSweepAux_inv (sweepShape sweep) sweep 0 ⟨[], []⟩ (by intro x hx; cases hx)
    · exact resolveSweepAux_below (sweepShape sweep) sweep 0 ⟨[], []⟩
  exact hinv m hm hrole

/-- Witness for amended C4 on the ArrayCounter layout: the Measured array
`array_counter` depends on `index1`, which indeed names a Setpoint array
with a prefix shape. -/
theorem c4_setpoint_shape_pre_witness :
    ∃ sp ∈ resolve cSweep [acParam], sp.id = "index1" ∧ sp.role = Role.setpoint ∧
      shapePre sp.shape
        (⟨"array_counter", Role.measured, [5, 3, 2], [],
          ["c_set", "index0", "index1"]⟩ : ResolvedArray).shape :=
  c4_setpoint_shape_pre cSweep [acParam]
    ⟨"array_counter", Role.measured, [5, 3, 2], [], ["c_set", "index0", "index1"]⟩
    (by decide) (by decide) "index1" (by decide)

/-- C4 counterexample: the claim requires each Setpoint shape to be a
STRICT prefix (strictly shorter) of every dependent Measured shape, but in
the ArrayCounter layout the Setpoint array `index1` has shape `(5,3,2)`,
identical to — not strictly shorter than — the Measured `array_counter`
shape it describes. -/
theorem c4_strict_cex :
    ∃ sp ∈ resolve cSweep [acParam], ∃ m ∈ resolve cSweep [acParam],
      sp.role = Role.setpoint ∧ m.role = Role.measured ∧ sp.id ∈ m.spIds ∧
      sp.shape = m.shape ∧ ¬ sp.shape.length < m.shape.length := by
  decide

/-- C7: if the action's `get` succeeds on the first `j` steps and raises on
step `j` of a `total`-step run, then the run surfaces exactly that error to
the caller, the DataSet's fill marker stops at `j`, `is_complete` is false,
and the buffer holds precisely the `j` correctly written blocks followed by
sentinel values (no half-written elements). -/
theorem c7_abort_consistency {σ : Type} (act : σ → Except String (List Rat × σ))
    (total bs j : Nat) (s : σ) (blks : List (List Rat)) (sj : σ) (e : String)
    (hrun : runPure act j s = some (blks, sj))
    (hfail : act sj = Except.error e)
    (hb : ∀ b ∈ blks, b.length = bs)
    (hj : j < total) :
    runStepsE act total s (allocateDS total bs) = (mkFilled total bs blks, some e) ∧
    isComplete (mkFilled total bs blks) = false ∧
    (mkFilled total bs blks).buffer =
      blks.flatten.map some ++ List.replicate ((total - j) * bs) none ∧
    (mkFilled total bs blks).filledSteps = j := by
  have hlen : blks.length = j := runPure_length act j s blks sj hrun
  have hfl : blks.flatten.length = j * bs := by
    rw [flatten_const_len bs blks hb, hlen]
  refine ⟨?_, ?_, ?_, ?_⟩
  · rw [allocate_eq_mkFilled,
      runE_reach act bs total j s blks sj total [] hrun hb (by simp) (by simp; omega)
        (by omega)]
    obtain ⟨m, hm⟩ : ∃ m, total - j = m + 1 := ⟨total - j - 1, by omega⟩
    rw [hm]
    simp [runStepsE, hfail]
  · simp only [isComplete, mkFilled, hlen]
    rw [beq_eq_false_iff_ne]
    omega
  · show blks.flatten.map some ++
      List.replicate (total * bs - blks.flatten.length) none = _
    rw [hfl, Nat.sub_mul]
  · show blks.length = j
    exact hlen

/-- Witness for C7: the fallible action that raises on its third step, in a
three-step single-block run. -/
theorem c7_abort_consistency_witness :
    runStepsE failAct 3 0 (allocateDS 3 1) =
      (mkFilled 3 1 [[37], [37]], some "instrument unreachable") ∧
    isComplete (mkFilled 3 1 [[37], [37]]) = false ∧
    (mkFilled 3 1 [[37], [37]]).buffer =
      [[37], [37]].flatten.map some ++ List.replicate ((3 - 2) * 1) none ∧
    (mkFilled 3 1 [[37], [37]]).filledSteps = 2 :=
  c7_abort_consistency failAct 3 1 2 0 [[37], [37]] 2 "instrument unreachable"
    (by with_unfolding_all rfl) (by with_unfolding_all rfl)
    (by decide) (by decide)

/-- Witness for the amended C5 at concrete parameters. -/
theorem c5_setpoint_length_inv_witness :
    spInv (mkDerivative [0, 1, 2] 3).shape0 (mkDerivative [0, 1, 2] 3).sp ∧
    spInv (mkSmoothDeriv [0, 1, 2, 3] 4 2).shape0 (mkSmoothDeriv [0, 1, 2, 3] 4 2).sp ∧
    spInv (changeKernelSize (mkSmoothDeriv [0, 1, 2, 3, 4] 5 2) 2).1.shape0
      (changeKernelSize (mkSmoothDeriv [0, 1, 2, 3, 4] 5 2) 2).1.sp :=
  ⟨c5_setpoint_length_inv.1 [0, 1, 2] 3 (by decide) (by decide),
   c5_setpoint_length_inv.2.1 [0, 1, 2, 3] 4 2 (by decide) (by decide) (by decide),
   c5_setpoint_length_inv.2.2 (mkSmoothDeriv [0, 1, 2, 3, 4] 5 2) 2 (by decide)
     (by decide) (by decide) (by decide)⟩

end Qcodes
